import Mathlib

/-!
Verification development for the expense-tracker record store in app.py.

The store keeps records as rows of four string fields
(Date, Amount, Category, Description) in a CSV file.  We shallowly embed
the relevant parts of the program:

* the CSV layer (Python csv.writer / csv.reader with the default dialect:
  delimiter comma, quote char a double quote, QUOTE_MINIMAL, line
  terminator CRLF) over lists of characters;
* read_rows / write_rows, filter_rows, the summaries, delete_by_index,
  edit_by_index and export_rows;
* Python float parsing and 2-decimal formatting, with float values
  modelled as rationals (claims compare totals at 2-decimal display
  precision, where the rational model agrees with binary floats for the
  magnitudes involved).
-/

/-! ### CSV serialization (csv.writer, default dialect) -/

/-- Set of characters that force quoting under QUOTE_MINIMAL: the
delimiter, the quote char, and the characters of the CRLF terminator. -/
def specialChar (c : Char) : Bool :=
  c == ',' || c == '"' || c == '\r' || c == '\n'

/-- A field must be quoted iff it contains a special character. -/
def needsQuote (f : List Char) : Bool :=
  f.any specialChar

/-- Double every quote character, as csv.writer does inside quoted fields. -/
def escQ : List Char → List Char
  | [] => []
  | c :: t => if c = '"' then '"' :: '"' :: escQ t else c :: escQ t

/-- Serialize one field with minimal quoting. -/
def quoteField (f : List Char) : List Char :=
  if needsQuote f then '"' :: (escQ f ++ ['"']) else f

/-- Serialize the fields of a row, comma separated. -/
def serialFields : List (List Char) → List Char
  | [] => []
  | [f] => quoteField f
  | f :: fs => quoteField f ++ ',' :: serialFields fs

/-- Serialize one row, terminated by CRLF (csv.writer default). -/
def serialRow (r : List (List Char)) : List Char :=
  serialFields r ++ ['\r', '\n']

/-- Serialize a sequence of rows. -/
def serialRows : List (List (List Char)) → List Char
  | [] => []
  | r :: rs => serialRow r ++ serialRows rs

/-! ### CSV parsing (csv.reader, default dialect)

The parser is the standard CSV state machine: a field is either quoted
(everything up to an unescaped closing quote, doubled quotes decoded) or
unquoted (everything up to a delimiter or record terminator).  Recursion
over records is fuelled; read_rows instantiates the fuel with the input
length plus one, which is always sufficient. -/

/-- Parse the body of a quoted field (the opening quote already consumed).
Returns the decoded field and the rest of the input after the closing
quote. -/
def parseQuoted : List Char → List Char × List Char
  | [] => ([], [])
  | c :: rest =>
    if c = '"' then
      match rest with
      | [] => ([], [])
      | d :: rest2 =>
        if d = '"' then
          let p := parseQuoted rest2
          ('"' :: p.1, p.2)
        else ([], d :: rest2)
    else
      let p := parseQuoted rest
      (c :: p.1, p.2)

/-- A character ending an unquoted field. -/
def stopChar (c : Char) : Bool :=
  c == ',' || c == '\r' || c == '\n'

/-- Parse an unquoted field: everything up to a stop character. -/
def parseUnquoted : List Char → List Char × List Char
  | [] => ([], [])
  | c :: rest =>
    if stopChar c then ([], c :: rest)
    else
      let p := parseUnquoted rest
      (c :: p.1, p.2)

/-- Parse one field, quoted or not. -/
def parseField : List Char → List Char × List Char
  | [] => ([], [])
  | c :: rest => if c = '"' then parseQuoted rest else parseUnquoted (c :: rest)

/-- Parse one record: fields separated by commas, ended by CRLF (or a bare
CR or LF, or end of input). -/
def parseRecordF : Nat → List Char → List (List Char) × List Char
  | 0, s => ([], s)
  | fuel + 1, s =>
    let f := (parseField s).1
    match (parseField s).2 with
    | [] => ([f], [])
    | c :: r2 =>
      if c = ',' then
        let q := parseRecordF fuel r2
        (f :: q.1, q.2)
      else if c = '\r' then
        match r2 with
        | [] => ([f], [])
        | d :: r3 => if d = '\n' then ([f], r3) else ([f], d :: r3)
      else if c = '\n' then ([f], r2)
      else ([f], c :: r2)

/-- Parse all records of the input. -/
def parseRecordsF : Nat → List Char → List (List (List Char))
  | 0, _ => []
  | fuel + 1, s =>
    match s with
    | [] => []
    | c :: rest =>
      let q := parseRecordF (fuel + 1) (c :: rest)
      q.1 :: parseRecordsF fuel q.2

/-! ### The store (read_rows / write_rows)

The backing file is modelled by its character contents. -/

/-- Fixed header row of the backing file. -/
def HEADERS : List String := ["Date", "Amount", "Category", "Description"]

/-- Embed write_rows: the file contents after overwriting the CSV with
HEADERS followed by the given rows. -/
def write_rows (rows : List (List String)) : List Char :=
  serialRows ((HEADERS :: rows).map (fun r => r.map String.data))

/-- Drop the leading header row when present, as read_rows does for
include_header = False. -/
def dropHeader : List (List String) → List (List String)
  | first :: rest => if first = HEADERS then rest else first :: rest
  | [] => []

/-- Embed read_rows (include_header = False): parse all rows of the file
contents and drop the first row when it equals HEADERS. -/
def read_rows (contents : List Char) : List (List String) :=
  dropHeader ((parseRecordsF (contents.length + 1) contents).map
    (fun r => r.map (fun f => String.mk f)))

/-- Property of a parse continuation: it is empty or starts with a field
terminator.  Serialized fields are always followed by such a position. -/
def restOk : List Char → Prop
  | [] => True
  | c :: _ => stopChar c = true


/-! ### Records and the filter (filter_rows)

A record is a row of four string fields.  String lowering models Python
str.lower on the ASCII range; string comparison (lexLe) models Python
string comparison, lexicographic by code point; containsL models the
Python substring operator. -/

structure Row where
  date : String
  amount : String
  category : String
  desc : String
deriving DecidableEq

def lowerL (l : List Char) : List Char :=
  l.map Char.toLower

def lexLe : List Char → List Char → Bool
  | [], _ => true
  | _ :: _, [] => false
  | a :: as, b :: bs => if a < b then true else if b < a then false else lexLe as bs

def startsWithL : List Char → List Char → Bool
  | [], _ => true
  | _ :: _, [] => false
  | a :: as, b :: bs => a == b && startsWithL as bs

def containsL (n : List Char) : List Char → Bool
  | [] => startsWithL n []
  | c :: t => startsWithL n (c :: t) || containsL n t

def truthyS (s : String) : Bool := !(s == "")

def joinFields (r : Row) : String :=
  r.date ++ " " ++ r.amount ++ " " ++ r.category ++ " " ++ r.desc

def catPass (category : Option String) (cat : String) : Bool :=
  match category with
  | none => true
  | some c => !(truthyS c && !(lowerL cat.data == lowerL c.data))

def in_range (start_date end_date : Option String) (d : String) : Bool :=
  (match start_date with
   | none => true
   | some s => lexLe s.data d.data) &&
  (match end_date with
   | none => true
   | some e => lexLe d.data e.data)

def textPass (text : Option String) (r : Row) : Bool :=
  match text with
  | none => true
  | some t => !(truthyS t && !(containsL (lowerL t.data) (lowerL (joinFields r).data)))

def rowPass (category start_date end_date text : Option String) (r : Row) : Bool :=
  catPass category r.category && in_range start_date end_date r.date && textPass text r

def filter_rows (rows : List Row) (category start_date end_date text : Option String) :
    List Row :=
  rows.filter (rowPass category start_date end_date text)

/-- Spec-side reading of the filter criteria (from the claim): each
supplied criterion must hold, absent criteria impose no constraint. -/
def SatisfiesCriteria (category start_date end_date text : Option String) (r : Row) :
    Prop :=
  (∀ c, category = some c → lowerL r.category.data = lowerL c.data) ∧
  (∀ s, start_date = some s → lexLe s.data r.date.data = true) ∧
  (∀ e, end_date = some e → lexLe r.date.data e.data = true) ∧
  (∀ t, text = some t → containsL (lowerL t.data) (lowerL (joinFields r).data) = true)


/-! ### Amounts

Python float() applied to the stored amount strings, and the arithmetic
done on the results, is modelled exactly: a parsed amount is an integer
mantissa with a power-of-ten denominator (every decimal literal has this
form).  The claims compare totals at 2-decimal display precision, where
this exact model agrees with binary floating point for the magnitudes
involved.  Rounding is modelled as round-half-up; Python rounds ties to
even, which differs only on exact .005 ties. -/

structure Dec where
  num : Int
  exp : Nat
deriving DecidableEq

def Dec.add (a b : Dec) : Dec :=
  if a.exp ≤ b.exp then ⟨a.num * 10 ^ (b.exp - a.exp) + b.num, b.exp⟩
  else ⟨b.num * 10 ^ (a.exp - b.exp) + a.num, a.exp⟩

def Dec.neg (a : Dec) : Dec := ⟨-a.num, a.exp⟩

/-- Value of the amount in hundredths, rounded half-up: models rounding a
float to 2 decimal places. -/
def centsOf (d : Dec) : Int :=
  if d.exp ≤ 2 then d.num * 10 ^ (2 - d.exp)
  else
    let b : Int := 10 ^ (d.exp - 2)
    Int.fdiv (2 * d.num + b) (2 * b)

def isSpace (c : Char) : Bool :=
  c == ' ' || c == '\t' || c == '\n' || c == '\r'

def stripSpaces (l : List Char) : List Char :=
  ((l.dropWhile isSpace).reverse.dropWhile isSpace).reverse

def digitsVal (l : List Char) : Nat :=
  l.foldl (fun a c => 10 * a + (c.toNat - 48)) 0

def isDigits (l : List Char) : Bool :=
  !l.isEmpty && l.all Char.isDigit

def parseE : List Char → Option Int
  | [] => some 0
  | c :: t =>
    if c = 'e' ∨ c = 'E' then
      match t with
      | '+' :: d => if isDigits d then some (digitsVal d) else none
      | '-' :: d => if isDigits d then some (-(digitsVal d : Int)) else none
      | d => if isDigits d then some (digitsVal d) else none
    else none

def applyExp (d : Dec) (e : Int) : Dec :=
  if 0 ≤ e then ⟨d.num * 10 ^ e.toNat, d.exp⟩ else ⟨d.num, d.exp + (-e).toNat⟩

/-- Parse an unsigned float literal: digits, optional fraction, optional
exponent (Python also accepts digit-group underscores and inf and nan,
which this model rejects; no stored amount uses them). -/
def parseMantissa (l : List Char) : Option Dec :=
  let ip := l.takeWhile Char.isDigit
  let r1 := l.dropWhile Char.isDigit
  match r1 with
  | '.' :: r2 =>
    let fp := r2.takeWhile Char.isDigit
    let r3 := r2.dropWhile Char.isDigit
    if ip.isEmpty && fp.isEmpty then none
    else
      match parseE r3 with
      | none => none
      | some e => some (applyExp ⟨(digitsVal (ip ++ fp) : Int), fp.length⟩ e)
  | r1' =>
    if ip.isEmpty then none
    else
      match parseE r1' with
      | none => none
      | some e => some (applyExp ⟨(digitsVal ip : Int), 0⟩ e)

/-- Model of Python float(s) restricted to the finite decimal and exponent
notations: the domain on which the aggregations do arithmetic that the
exact decimal model can represent.  The full acceptance of float() —
including the inf, infinity and nan keywords and underscore-grouped
digits — is modelled separately by parsePyFloatFull below and used where
those inputs matter (the edit path of C8). -/
def parsePyFloat (s : String) : Option Dec :=
  match stripSpaces s.data with
  | '+' :: t => parseMantissa t
  | '-' :: t => (parseMantissa t).map Dec.neg
  | t => parseMantissa t

/-- Result of Python float(): a finite decimal value, a signed infinity,
or a nan. -/
inductive PyVal where
  | finite (d : Dec)
  | posInf
  | negInf
  | nan
deriving DecidableEq

/-- Validate and remove Python's digit-group underscores: every
underscore must sit between two digits (float("1_2.3_4") is accepted,
float("1__2"), float("_1") and float("1_") are not). -/
def deU : List Char → Option (List Char)
  | [] => some []
  | [c] => if c = '_' then none else some [c]
  | c :: d :: rest =>
    if c = '_' then none
    else if d = '_' then
      match rest with
      | e :: _ => if c.isDigit && e.isDigit then (deU rest).map (c :: ·) else none
      | [] => none
    else (deU (d :: rest)).map (c :: ·)

/-- Parse the body of a float literal after the optional sign: the
case-insensitive keywords inf, infinity and nan, or a finite mantissa
with underscores removed. -/
def parseBodyFull (t : List Char) (neg : Bool) : Option PyVal :=
  let low := lowerL t
  if low = "inf".data ∨ low = "infinity".data then
    some (if neg then .negInf else .posInf)
  else if low = "nan".data then some .nan
  else
    match deU t with
    | none => none
    | some t2 => (parseMantissa t2).map (fun d => .finite (if neg then d.neg else d))

/-- Model of Python float() on its full accepted input language. -/
def parsePyFloatFull (s : String) : Option PyVal :=
  match stripSpaces s.data with
  | '+' :: t => parseBodyFull t false
  | '-' :: t => parseBodyFull t true
  | t => parseBodyFull t false

/-- Model of round(x, 2). -/
def pyRound2 (d : Dec) : Dec := ⟨centsOf d, 2⟩

/-- Render an integer number of cents with exactly two decimals. -/
def formatCents (n : Int) : String :=
  String.mk ((if n < 0 then ['-'] else []) ++ (Nat.repr (n.natAbs / 100)).data ++
    '.' :: [Nat.digitChar (n.natAbs / 10 % 10), Nat.digitChar (n.natAbs % 10)])

/-- Model of the 2-decimal float format used for display and storage. -/
def format_money (d : Dec) : String :=
  formatCents (centsOf d)

def addTo : List (String × Dec) → String → Dec → List (String × Dec)
  | [], k, v => [(k, v)]
  | (k', v') :: t, k, v =>
    if k' = k then (k', v'.add v) :: t else (k', v') :: addTo t k v

def groupSumAux (key : Row → String) : List Row → List (String × Dec) → List (String × Dec)
  | [], acc => acc
  | r :: t, acc =>
    match parsePyFloat r.amount with
    | some v => groupSumAux key t (addTo acc (key r) v)
    | none => groupSumAux key t acc

/-- Per-key totals in first-seen key order, skipping unparsable amounts:
models the dict accumulation loop of the summaries. -/
def groupSum (key : Row → String) (rows : List Row) : List (String × Dec) :=
  groupSumAux key rows []

def insertSortedKey (x : String × Dec) : List (String × Dec) → List (String × Dec)
  | [] => [x]
  | y :: t => if lexLe x.1.data y.1.data then x :: y :: t else y :: insertSortedKey x t

/-- Keys in ascending order: models sorted(totals). -/
def sortKeys (l : List (String × Dec)) : List (String × Dec) :=
  l.foldr insertSortedKey []

/-- Month key: first seven characters of the date. -/
def monthKey (r : Row) : String :=
  String.mk (r.date.data.take 7)

def summarize_by_category (rows : List Row) : List (String × String) :=
  (sortKeys (groupSum (fun r => r.category) rows)).map
    (fun kv => (kv.1, format_money kv.2))

def summarize_by_date (rows : List Row) : List (String × String) :=
  (sortKeys (groupSum (fun r => r.date) rows)).map
    (fun kv => (kv.1, format_money kv.2))

def summarize_by_month (rows : List Row) : List (String × String) :=
  (sortKeys (groupSum monthKey rows)).map
    (fun kv => (kv.1, format_money kv.2))

def totalAux : List Row → Dec → Dec
  | [], acc => acc
  | r :: t, acc =>
    match parsePyFloat r.amount with
    | some v => totalAux t (acc.add v)
    | none => totalAux t acc

def show_total (rows : List Row) : String :=
  format_money (totalAux rows ⟨0, 0⟩)

def scenarioStore : List Row :=
  [⟨"2025-01-05", "12.50", "Food", "lunch"⟩,
   ⟨"2025-01-20", "40.00", "Transport", "bus pass"⟩,
   ⟨"2025-02-01", "9.99", "Food", "snack"⟩]

def summarize_by_category_op (store : List Row) : List (String × String) × List Row :=
  (summarize_by_category store, store)

def summarize_by_date_op (store : List Row) : List (String × String) × List Row :=
  (summarize_by_date store, store)

def summarize_by_month_op (store : List Row) : List (String × String) × List Row :=
  (summarize_by_month store, store)

def show_total_op (store : List Row) : String × List Row :=
  (show_total store, store)

def hasParsableAmount (r : Row) : Bool :=
  (parsePyFloat r.amount).isSome

def commaFix (s : String) : String :=
  String.mk (s.data.map (fun c => if c = ',' then '.' else c))

def ask_amount (raw : String) : Option Dec :=
  (parsePyFloat (commaFix raw)).map pyRound2

def pyFloatStr (cents : Int) : String :=
  let m := cents.natAbs
  let sign := if cents < 0 then "-" else ""
  let ip := Nat.repr (m / 100)
  let f := m % 100
  if f = 0 then sign ++ ip ++ ".0"
  else if f % 10 = 0 then sign ++ ip ++ "." ++ Nat.repr (f / 10)
  else sign ++ ip ++ "." ++ (if f < 10 then "0" else "") ++ Nat.repr f

def add_expense_stored_amount (raw : String) : Option String :=
  (ask_amount raw).map (fun d => pyFloatStr (centsOf d))

/-- Model of round(x, 2) on a float() result: infinities and nan are
fixed points of round. -/
def pyRound2Full : PyVal → PyVal
  | .finite d => .finite (pyRound2 d)
  | v => v

/-- Model of the 2-decimal format applied to a float() result: CPython
renders the non-finite values as inf, -inf and nan (with no fractional
digits). -/
def pyFormat2 : PyVal → String
  | .finite d => formatCents (centsOf d)
  | .posInf => "inf"
  | .negInf => "-inf"
  | .nan => "nan"

/-- The amount string persisted by the edit path, over the full input
language of float(): the loop accepts any input float() accepts and
stores the 2-decimal format of the rounded value. -/
def edit_stored_amount (raw : String) : Option String :=
  (parsePyFloatFull (commaFix raw)).map (fun v => pyFormat2 (pyRound2Full v))

def twoFracDigits (s : String) : Bool :=
  match s.data.reverse with
  | c :: b :: p :: _ => b.isDigit && c.isDigit && (p == '.')
  | _ => false

/-! ### Positional mutation (delete_by_index / edit_by_index)

The store state is the loaded row list; both operations bounds-check the
index before mutating, and an out-of-range index leaves the store
unchanged (the program prints an error and returns without writing). -/

/-- Embed delete_by_index: bounds-check the index (rejecting negatives and
indices past the end with an error message and no write), otherwise pop the
row and persist.  Returns the popped row and the resulting store. -/
def delete_by_index (store : List Row) (idx : Int) : Option Row × List Row :=
  if 0 ≤ idx ∧ idx.toNat < store.length then
    (store[idx.toNat]?, store.eraseIdx idx.toNat)
  else (none, store)

/-- Embed edit_by_index: bounds-check the index the same way, otherwise
replace the row at that position with the new record and persist.  Returns
whether the edit was applied, with the resulting store. -/
def edit_by_index (store : List Row) (idx : Int) (newRow : Row) : Bool × List Row :=
  if 0 ≤ idx ∧ idx.toNat < store.length then (true, store.set idx.toNat newRow)
  else (false, store)

/-! ### Export (export_rows)

The export file name is the strftime pattern 20250925_134507_export.csv;
the timestamp is encoded digit-wise (zero padded), matching strftime for
in-range wall-clock fields, and decode_ts inverts it. -/

structure Timestamp where
  year : Nat
  month : Nat
  day : Nat
  hour : Nat
  minute : Nat
  second : Nat
deriving DecidableEq

def tsValid (t : Timestamp) : Prop :=
  1000 ≤ t.year ∧ t.year ≤ 9999 ∧ 1 ≤ t.month ∧ t.month ≤ 12 ∧
  1 ≤ t.day ∧ t.day ≤ 31 ∧ t.hour ≤ 23 ∧ t.minute ≤ 59 ∧ t.second ≤ 59

instance (t : Timestamp) : Decidable (tsValid t) := by
  unfold tsValid
  infer_instance

def pad2 (n : Nat) : List Char :=
  [Nat.digitChar (n / 10 % 10), Nat.digitChar (n % 10)]

def pad4 (n : Nat) : List Char :=
  [Nat.digitChar (n / 1000 % 10), Nat.digitChar (n / 100 % 10),
   Nat.digitChar (n / 10 % 10), Nat.digitChar (n % 10)]

def strftime_ts (t : Timestamp) : String :=
  String.mk (pad4 t.year ++ pad2 t.month ++ pad2 t.day ++ ['_'] ++
    pad2 t.hour ++ pad2 t.minute ++ pad2 t.second)

def export_rows (rows : List (List String)) (now : Timestamp) :
    Option (String × List Char) :=
  if rows.isEmpty then none
  else some (strftime_ts now ++ "_export.csv",
    serialRows ((HEADERS :: rows).map (fun r => r.map String.data)))

def charDigit (c : Char) : Nat := c.toNat - 48

def decode_ts (s : String) : Option Timestamp :=
  match s.data with
  | [y1, y2, y3, y4, m1, m2, d1, d2, u, h1, h2, n1, n2, s1, s2] =>
    if u = '_' then
      some ⟨1000 * charDigit y1 + 100 * charDigit y2 + 10 * charDigit y3 + charDigit y4,
        10 * charDigit m1 + charDigit m2,
        10 * charDigit d1 + charDigit d2,
        10 * charDigit h1 + charDigit h2,
        10 * charDigit n1 + charDigit n2,
        10 * charDigit s1 + charDigit s2⟩
    else none
  | _ => none

/-! ### Raw rows and the unpacking exception

The loops in filter_rows and the summaries destructure each raw row into
four variables before doing anything else; Python raises ValueError when
the row arity differs.  These variants make that exception path explicit
over raw string rows. -/

inductive PyExc where
  | valueError
deriving DecidableEq

/-- Unpacking a row into the four fields date, amount, category,
description: models the tuple unpacking at the top of the loops, which
raises ValueError when the row does not have exactly four fields. -/
def unpack4 : List String → Except PyExc (String × String × String × String)
  | [d, a, c, x] => .ok (d, a, c, x)
  | _ => .error .valueError

/-- Unpack every row; the first malformed row aborts with ValueError. -/
def toRows : List (List String) → Except PyExc (List Row)
  | [] => .ok []
  | r :: t =>
    match unpack4 r with
    | .error e => .error e
    | .ok (d, a, c, x) =>
      match toRows t with
      | .error e => .error e
      | .ok rest => .ok (⟨d, a, c, x⟩ :: rest)

def filter_rows_raw (rows : List (List String))
    (category start_date end_date text : Option String) :
    Except PyExc (List (List String)) :=
  (toRows rows).map (fun rs =>
    (filter_rows rs category start_date end_date text).map
      (fun r => [r.date, r.amount, r.category, r.desc]))

def summarize_by_category_raw (rows : List (List String)) :
    Except PyExc (List (String × String)) :=
  (toRows rows).map summarize_by_category

def summarize_by_date_raw (rows : List (List String)) :
    Except PyExc (List (String × String)) :=
  (toRows rows).map summarize_by_date

def summarize_by_month_raw (rows : List (List String)) :
    Except PyExc (List (String × String)) :=
  (toRows rows).map summarize_by_month

def show_total_raw (rows : List (List String)) : Except PyExc String :=
  (toRows rows).map show_total

/-! ### Round-trip lemmas for the CSV layer -/
theorem parseField_cons (c : Char) (rest : List Char) :
    parseField (c :: rest) =
      if c = '"' then parseQuoted rest else parseUnquoted (c :: rest) := rfl

theorem parseUnquoted_cons (c : Char) (rest : List Char) :
    parseUnquoted (c :: rest) =
      if stopChar c then ([], c :: rest)
      else (c :: (parseUnquoted rest).1, (parseUnquoted rest).2) := rfl

theorem parseQuoted_cons_ne {c : Char} (rest : List Char) (hc : c ≠ '"') :
    parseQuoted (c :: rest) = (c :: (parseQuoted rest).1, (parseQuoted rest).2) := by
  rw [parseQuoted.eq_def]
  simp [hc]

theorem parseQuoted_qq (rest : List Char) :
    parseQuoted ('"' :: '"' :: rest) =
      ('"' :: (parseQuoted rest).1, (parseQuoted rest).2) := by
  rw [parseQuoted.eq_def]
  simp

theorem parseQuoted_q_end : parseQuoted ['"'] = ([], []) := rfl

theorem parseQuoted_q_close {d : Char} (rest : List Char) (hd : d ≠ '"') :
    parseQuoted ('"' :: d :: rest) = ([], d :: rest) := by
  rw [parseQuoted.eq_def]
  simp [hd]

theorem stopChar_ne_quote {c : Char} (h : stopChar c = true) : c ≠ '"' := by
  intro hq
  subst hq
  simp [stopChar] at h

theorem parseQuoted_escQ (f rest : List Char) (h : restOk rest) :
    parseQuoted (escQ f ++ '"' :: rest) = (f, rest) := by
  induction f with
  | nil =>
    cases rest with
    | nil => exact parseQuoted_q_end
    | cons c t => exact parseQuoted_q_close t (stopChar_ne_quote h)
  | cons c f ih =>
    by_cases hc : c = '"'
    · subst hc
      show parseQuoted ('"' :: '"' :: (escQ f ++ '"' :: rest)) = ('"' :: f, rest)
      rw [parseQuoted_qq, ih]
    · have he : escQ (c :: f) = c :: escQ f := by
        rw [escQ.eq_def]
        simp [hc]
      rw [he, List.cons_append, parseQuoted_cons_ne _ hc, ih]

theorem parseUnquoted_stop (rest : List Char) (h : restOk rest) :
    parseUnquoted rest = ([], rest) := by
  cases rest with
  | nil => rfl
  | cons c t =>
    have h' : stopChar c = true := h
    rw [parseUnquoted_cons, if_pos h']

theorem not_special_not_stop {c : Char} (h : specialChar c = false) :
    stopChar c = false := by
  simp [specialChar] at h
  simp [stopChar, h]

theorem parseUnquoted_clean (f rest : List Char) (hf : needsQuote f = false) :
    parseUnquoted (f ++ rest) =
      (f ++ (parseUnquoted rest).1, (parseUnquoted rest).2) := by
  induction f with
  | nil => simp
  | cons c f ih =>
    simp only [needsQuote, List.any_cons, Bool.or_eq_false_iff] at hf
    have hs : stopChar c = false := not_special_not_stop hf.1
    simp only [List.cons_append]
    rw [parseUnquoted_cons, if_neg (by simp [hs]), ih (by simp [needsQuote, hf.2])]

theorem needsQuote_head_ne_quote {c : Char} {t : List Char}
    (h : needsQuote (c :: t) = false) : c ≠ '"' := by
  intro hq
  subst hq
  simp [needsQuote, specialChar] at h

theorem quoteField_clean {f : List Char} (hq : needsQuote f = false) :
    quoteField f = f := by
  simp [quoteField, hq]

theorem quoteField_quoted {f : List Char} (hq : needsQuote f = true) :
    quoteField f = '"' :: (escQ f ++ ['"']) := by
  simp [quoteField, hq]

theorem parseField_serial (f rest : List Char) (h : restOk rest) :
    parseField (quoteField f ++ rest) = (f, rest) := by
  by_cases hq : needsQuote f = true
  · rw [quoteField_quoted hq, List.cons_append, parseField_cons, if_pos rfl,
      List.append_assoc, List.singleton_append]
    exact parseQuoted_escQ f rest h
  · replace hq : needsQuote f = false := by simpa using hq
    rw [quoteField_clean hq]
    cases f with
    | nil =>
      rw [List.nil_append]
      cases rest with
      | nil => rfl
      | cons c t =>
        have hc : c ≠ '"' := stopChar_ne_quote h
        rw [parseField_cons, if_neg hc]
        exact parseUnquoted_stop _ h
    | cons c t =>
      have hc : c ≠ '"' := needsQuote_head_ne_quote hq
      rw [List.cons_append, parseField_cons, if_neg hc, ← List.cons_append,
        parseUnquoted_clean (c :: t) rest hq, parseUnquoted_stop rest h]
      simp

theorem parseRecordF_comma (fuel : Nat) (s f tail : List Char)
    (h : parseField s = (f, ',' :: tail)) :
    parseRecordF (fuel + 1) s =
      (f :: (parseRecordF fuel tail).1, (parseRecordF fuel tail).2) := by
  rw [parseRecordF.eq_def]
  simp [h]

theorem parseRecordF_crlf (fuel : Nat) (s f tail : List Char)
    (h : parseField s = (f, '\r' :: '\n' :: tail)) :
    parseRecordF (fuel + 1) s = ([f], tail) := by
  rw [parseRecordF.eq_def]
  simp [h]

theorem serialFields_cons (f : List Char) (g : List Char) (fs : List (List Char)) :
    serialFields (f :: g :: fs) = quoteField f ++ ',' :: serialFields (g :: fs) := rfl

theorem parseRecordF_serial (fs : List (List Char)) (rest : List Char) :
    ∀ fuel, fs ≠ [] → fs.length ≤ fuel + 1 →
      parseRecordF (fuel + 1) (serialFields fs ++ '\r' :: '\n' :: rest) =
        (fs, rest) := by
  induction fs with
  | nil => intro fuel hne; exact absurd rfl hne
  | cons f fs ih =>
    intro fuel _ hlen
    cases fs with
    | nil =>
      have hp : parseField (quoteField f ++ '\r' :: '\n' :: rest) =
          (f, '\r' :: '\n' :: rest) :=
        parseField_serial f _ (show stopChar '\r' = true by decide)
      exact parseRecordF_crlf fuel _ f rest (by simpa [serialFields] using hp)
    | cons g fs' =>
      cases fuel with
      | zero => simp at hlen
      | succ k =>
        rw [serialFields_cons, List.append_assoc, List.cons_append]
        have hp : parseField
            (quoteField f ++ ',' :: (serialFields (g :: fs') ++ '\r' :: '\n' :: rest)) =
            (f, ',' :: (serialFields (g :: fs') ++ '\r' :: '\n' :: rest)) :=
          parseField_serial f _ (show stopChar ',' = true by decide)
        rw [parseRecordF_comma (k + 1) _ f _ hp,
          ih k (by simp) (by simpa using Nat.le_of_succ_le_succ hlen)]

theorem serialFields_length (fs : List (List Char)) :
    fs.length ≤ (serialFields fs).length + 1 := by
  induction fs with
  | nil => simp [serialFields]
  | cons f fs ih =>
    cases fs with
    | nil => simp [serialFields]
    | cons g fs' =>
      rw [serialFields_cons]
      simp only [List.length_cons, List.length_append] at ih ⊢
      omega

theorem serialRow_eq (r : List (List Char)) (x : List Char) :
    serialRow r ++ x = serialFields r ++ '\r' :: '\n' :: x := by
  simp [serialRow]

theorem parseRecordsF_nil (fuel : Nat) : parseRecordsF fuel [] = [] := by
  cases fuel <;> rfl

theorem serialRow_length (r : List (List Char)) :
    (serialRow r).length = (serialFields r).length + 2 := by
  simp [serialRow]

theorem parseRecordsF_serial (rs : List (List (List Char))) :
    ∀ fuel, (∀ r ∈ rs, r ≠ []) → (serialRows rs).length ≤ fuel →
      parseRecordsF fuel (serialRows rs) = rs := by
  induction rs with
  | nil => intro fuel _ _; exact parseRecordsF_nil fuel
  | cons r rs ih =>
    intro fuel hne hlen
    have hr : r ≠ [] := hne r (by simp)
    have hsr : (serialRows (r :: rs)) = serialFields r ++ '\r' :: '\n' :: serialRows rs := by
      rw [serialRows, serialRow_eq]
    have hlen2 : (serialRows (r :: rs)).length =
        (serialFields r).length + 2 + (serialRows rs).length := by
      rw [serialRows, List.length_append, serialRow_length]
    cases fuel with
    | zero => omega
    | succ k =>
      have hfuel : r.length ≤ k + 1 := by
        have h1 := serialFields_length r
        omega
      have hrec := parseRecordF_serial r (serialRows rs) k hr hfuel
      -- the serialized input is nonempty, so the succ branch fires
      have hcons : ∃ c t, serialRows (r :: rs) = c :: t := by
        rw [hsr]
        cases hf : serialFields r with
        | nil => exact ⟨'\r', '\n' :: serialRows rs, by simp⟩
        | cons c t => exact ⟨c, t ++ '\r' :: '\n' :: serialRows rs, by simp⟩
      obtain ⟨c, t, hct⟩ := hcons
      rw [hct, parseRecordsF, ← hct, hsr, hrec]
      exact congrArg (r :: ·) (ih k (fun x hx => hne x (by simp [hx])) (by omega))


theorem string_mk_data (s : String) : String.mk s.data = s := rfl

theorem map_mk_map_data (r : List String) :
    (r.map String.data).map (fun f => String.mk f) = r := by
  induction r with
  | nil => rfl
  | cons s t ih =>
    simp only [List.map_cons]
    rw [ih]

theorem map_map_mk_data (rs : List (List String)) :
    (rs.map (fun r => r.map String.data)).map
      (fun r => r.map (fun f => String.mk f)) = rs := by
  induction rs with
  | nil => rfl
  | cons r t ih =>
    simp only [List.map_cons]
    rw [ih, map_mk_map_data]

theorem read_rows_write_rows (rows : List (List String))
    (h4 : ∀ r ∈ rows, r.length = 4) :
    read_rows (write_rows rows) = rows := by
  have hne : ∀ r ∈ (HEADERS :: rows).map (fun r => r.map String.data), r ≠ [] := by
    intro r hr
    simp only [List.mem_map] at hr
    obtain ⟨r', hr', rfl⟩ := hr
    have hlen : r'.length = 4 := by
      rcases List.mem_cons.mp hr' with h | h
      · subst h; rfl
      · exact h4 r' h
    intro hnil
    rw [← List.length_eq_zero, List.length_map, hlen] at hnil
    omega
  have hparse := parseRecordsF_serial ((HEADERS :: rows).map (fun r => r.map String.data))
    ((write_rows rows).length + 1) hne (by simp [write_rows])
  unfold read_rows
  rw [show (write_rows rows : List Char) =
    serialRows ((HEADERS :: rows).map (fun r => r.map String.data)) from rfl] at hparse ⊢
  rw [hparse, map_map_mk_data (HEADERS :: rows)]
  simp [dropHeader]

/-- C1: writing any sequence of 4-field records with write_rows and
reading it back with read_rows returns the sequence field-for-field and
order-for-order, including descriptions with commas, quotes and embedded
newlines. -/
theorem write_read_roundtrip (rows : List (List String))
    (h4 : ∀ r ∈ rows, r.length = 4) :
    read_rows (write_rows rows) = rows :=
  read_rows_write_rows rows h4

/-- Witness for C1 at a concrete store containing a description with a
comma, quotes and an embedded newline. -/
theorem write_read_roundtrip_witness :
    (∀ r ∈ ([["2025-01-05", "12.50", "Food", "lunch, \"fancy\"\nsecond line"],
        ["2025-01-20", "40.00", "Transport", "bus pass"]] : List (List String)),
      r.length = 4) ∧
    read_rows (write_rows
        [["2025-01-05", "12.50", "Food", "lunch, \"fancy\"\nsecond line"],
         ["2025-01-20", "40.00", "Transport", "bus pass"]]) =
      [["2025-01-05", "12.50", "Food", "lunch, \"fancy\"\nsecond line"],
       ["2025-01-20", "40.00", "Transport", "bus pass"]] :=
  ⟨by decide, write_read_roundtrip _ (by decide)⟩

/-! ### Filter theorems (C2, C10) -/

theorem truthyS_of_ne {s : String} (h : s ≠ "") : truthyS s = true := by
  simp [truthyS, h]

theorem rowPass_iff (category start_date end_date text : Option String) (r : Row)
    (hc : category ≠ some "") (ht : text ≠ some "") :
    rowPass category start_date end_date text r = true ↔
      SatisfiesCriteria category start_date end_date text r := by
  unfold rowPass SatisfiesCriteria
  simp only [Bool.and_eq_true]
  constructor
  · rintro ⟨⟨h1, h2⟩, h3⟩
    refine ⟨?_, ?_, ?_, ?_⟩
    · intro c hcc
      subst hcc
      have hcne : c ≠ "" := fun hh => hc (by rw [hh])
      simp [catPass, truthyS_of_ne hcne] at h1
      exact h1
    · intro s hs
      subst hs
      simp only [in_range, Bool.and_eq_true] at h2
      exact h2.1
    · intro e he
      subst he
      simp only [in_range, Bool.and_eq_true] at h2
      exact h2.2
    · intro t htt
      subst htt
      have htne : t ≠ "" := fun hh => ht (by rw [hh])
      simp [textPass, truthyS_of_ne htne] at h3
      exact h3
  · rintro ⟨h1, h2, h3, h4⟩
    refine ⟨⟨?_, ?_⟩, ?_⟩
    · cases category with
      | none => rfl
      | some c =>
        have := h1 c rfl
        simp [catPass, this]
    · simp only [in_range, Bool.and_eq_true]
      constructor
      · cases start_date with
        | none => rfl
        | some s => exact h2 s rfl
      · cases end_date with
        | none => rfl
        | some e => exact h3 e rfl
    · cases text with
      | none => rfl
      | some t =>
        have := h4 t rfl
        simp [textPass, this]

/-- C2: the filter is a subsequence preserving relative order, and keeps
exactly the records meeting every supplied criterion. -/
theorem filter_rows_correct (rows : List Row)
    (category start_date end_date text : Option String)
    (hc : category ≠ some "") (ht : text ≠ some "") :
    (filter_rows rows category start_date end_date text).Sublist rows ∧
    ∀ r, r ∈ filter_rows rows category start_date end_date text ↔
      r ∈ rows ∧ SatisfiesCriteria category start_date end_date text r := by
  constructor
  · exact List.filter_sublist rows
  · intro r
    rw [filter_rows, List.mem_filter, rowPass_iff _ _ _ _ _ hc ht]

theorem filter_rows_correct_witness :
    ((some "food" : Option String) ≠ some "" ∧ (none : Option String) ≠ some "") ∧
    ((filter_rows
        [⟨"2025-01-05", "12.50", "Food", "lunch"⟩,
         ⟨"2025-01-20", "40.00", "Transport", "bus pass"⟩]
        (some "food") none none none).Sublist
      [⟨"2025-01-05", "12.50", "Food", "lunch"⟩,
       ⟨"2025-01-20", "40.00", "Transport", "bus pass"⟩] ∧
     ∀ r, r ∈ filter_rows
        [⟨"2025-01-05", "12.50", "Food", "lunch"⟩,
         ⟨"2025-01-20", "40.00", "Transport", "bus pass"⟩]
        (some "food") none none none ↔
       r ∈ [⟨"2025-01-05", "12.50", "Food", "lunch"⟩,
         ⟨"2025-01-20", "40.00", "Transport", "bus pass"⟩] ∧
       SatisfiesCriteria (some "food") none none none r) :=
  ⟨⟨by decide, by decide⟩,
    filter_rows_correct _ (some "food") none none none (by decide) (by decide)⟩

/-- C10: an empty category or text criterion behaves exactly as an absent
one, and a supplied (non-blank) category criterion never selects a record
with an empty category field. -/
theorem filter_rows_blank_criteria (rows : List Row)
    (category start_date end_date text : Option String) (cat : String)
    (hcat : cat ≠ "") :
    filter_rows rows (some "") start_date end_date text =
      filter_rows rows none start_date end_date text ∧
    filter_rows rows category start_date end_date (some "") =
      filter_rows rows category start_date end_date none ∧
    ∀ r ∈ filter_rows rows (some cat) start_date end_date text, r.category ≠ "" := by
  refine ⟨?_, ?_, ?_⟩
  · apply List.filter_congr
    intro r _
    simp [rowPass, catPass, truthyS]
  · apply List.filter_congr
    intro r _
    simp [rowPass, textPass, truthyS]
  · intro r hr hempty
    rw [filter_rows, List.mem_filter] at hr
    have h1 := hr.2
    simp only [rowPass, Bool.and_eq_true] at h1
    have h2 := h1.1.1
    simp [catPass, truthyS_of_ne hcat, hempty] at h2
    have : (lowerL cat.data).length = 0 := by rw [← h2]; rfl
    rw [lowerL, List.length_map] at this
    have : cat = "" := by
      cases cat with
      | mk data =>
        cases data with
        | nil => rfl
        | cons a b => simp at this
    exact hcat this

theorem filter_rows_blank_criteria_witness :
    ("Food" : String) ≠ "" ∧
    (filter_rows [⟨"2025-01-05", "12.50", "", "x"⟩] (some "") none none none =
      filter_rows [⟨"2025-01-05", "12.50", "", "x"⟩] none none none none ∧
    filter_rows [⟨"2025-01-05", "12.50", "", "x"⟩] none none none (some "") =
      filter_rows [⟨"2025-01-05", "12.50", "", "x"⟩] none none none none ∧
    ∀ r ∈ filter_rows [⟨"2025-01-05", "12.50", "", "x"⟩] (some "Food") none none none,
      r.category ≠ "") :=
  ⟨by decide, filter_rows_blank_criteria _ none none none none "Food" (by decide)⟩

/-! ### Aggregation and amount-format theorems (C3, C6, C8) -/

/-- C3: on the concrete three-record store, grouping by category, grouping
by month and the grand total give exactly the expected 2-decimal totals. -/
theorem scenario_summaries :
    summarize_by_category scenarioStore = [("Food", "22.49"), ("Transport", "40.00")] ∧
    summarize_by_month scenarioStore = [("2025-01", "52.50"), ("2025-02", "9.99")] ∧
    show_total scenarioStore = "62.49" := by
  refine ⟨by decide, by decide, by decide⟩

theorem groupSumAux_filter (key : Row → String) (rows : List Row) :
    ∀ acc, groupSumAux key rows acc =
      groupSumAux key (rows.filter hasParsableAmount) acc := by
  induction rows with
  | nil => intro acc; rfl
  | cons r t ih =>
    intro acc
    cases h : parsePyFloat r.amount with
    | some v =>
      rw [List.filter_cons_of_pos (by simp [hasParsableAmount, h])]
      rw [groupSumAux, h, groupSumAux, h]
      exact ih _
    | none =>
      rw [List.filter_cons_of_neg (by simp [hasParsableAmount, h])]
      rw [groupSumAux, h]
      exact ih _

theorem totalAux_filter (rows : List Row) :
    ∀ acc, totalAux rows acc = totalAux (rows.filter hasParsableAmount) acc := by
  induction rows with
  | nil => intro acc; rfl
  | cons r t ih =>
    intro acc
    cases h : parsePyFloat r.amount with
    | some v =>
      rw [List.filter_cons_of_pos (by simp [hasParsableAmount, h])]
      rw [totalAux, h, totalAux, h]
      exact ih _
    | none =>
      rw [List.filter_cons_of_neg (by simp [hasParsableAmount, h])]
      rw [totalAux, h]
      exact ih _

/-- C6: every aggregation skips rows whose amount does not parse — the
result equals the aggregation of the parseable rows only — and the
aggregations leave the store unchanged, so the corrupt row stays present
verbatim. -/
theorem aggregation_skips_corrupt (rows : List Row) :
    summarize_by_category rows = summarize_by_category (rows.filter hasParsableAmount) ∧
    summarize_by_date rows = summarize_by_date (rows.filter hasParsableAmount) ∧
    summarize_by_month rows = summarize_by_month (rows.filter hasParsableAmount) ∧
    show_total rows = show_total (rows.filter hasParsableAmount) ∧
    (summarize_by_category_op rows).2 = rows ∧
    (summarize_by_date_op rows).2 = rows ∧
    (summarize_by_month_op rows).2 = rows ∧
    (show_total_op rows).2 = rows := by
  refine ⟨?_, ?_, ?_, ?_, rfl, rfl, rfl, rfl⟩
  · rw [summarize_by_category, summarize_by_category, groupSum, groupSum,
      groupSumAux_filter]
  · rw [summarize_by_date, summarize_by_date, groupSum, groupSum, groupSumAux_filter]
  · rw [summarize_by_month, summarize_by_month, groupSum, groupSum, groupSumAux_filter]
  · rw [show_total, show_total, totalAux_filter]

theorem string_mk_data_eq (l : List Char) : (String.mk l).data = l := rfl

theorem digitChar_isDigit {d : Nat} (hd : d < 10) :
    (Nat.digitChar d).isDigit = true := by
  interval_cases d <;> rfl

theorem twoFracDigits_formatCents (n : Int) :
    twoFracDigits (formatCents n) = true := by
  have h1 : (Nat.digitChar (n.natAbs / 10 % 10)).isDigit = true :=
    digitChar_isDigit (Nat.mod_lt _ (by norm_num))
  have h2 : (Nat.digitChar (n.natAbs % 10)).isDigit = true :=
    digitChar_isDigit (Nat.mod_lt _ (by norm_num))
  unfold twoFracDigits formatCents
  rw [string_mk_data_eq]
  rw [show ((if n < 0 then ['-'] else []) ++ (Nat.repr (n.natAbs / 100)).data ++
      '.' :: [Nat.digitChar (n.natAbs / 10 % 10), Nat.digitChar (n.natAbs % 10)]).reverse =
      Nat.digitChar (n.natAbs % 10) :: Nat.digitChar (n.natAbs / 10 % 10) :: '.' ::
        ((Nat.repr (n.natAbs / 100)).data.reverse ++
          (if n < 0 then ['-'] else []).reverse) by
    simp [List.reverse_append]]
  show ((n.natAbs / 10 % 10).digitChar.isDigit && (n.natAbs % 10).digitChar.isDigit &&
    ('.' == '.')) = true
  rw [h1, h2]
  rfl

/-- C8 counterexample: the append path persists the amount 12.5 as the
string 12.5 (Python str of the rounded float drops the trailing zero),
and the edit path accepts the float() input inf and persists it as inf —
both without two fractional digits. -/
theorem amount_serialization_cx :
    add_expense_stored_amount "12.5" = some "12.5" ∧
    twoFracDigits "12.5" = false ∧
    edit_stored_amount "inf" = some "inf" ∧
    twoFracDigits "inf" = false := by
  refine ⟨by decide, by decide, by decide, by decide⟩

/-- C8 (amended): whenever the edit path persists an amount, the stored
string either has exactly two fractional digits (always the case when
float() produced a finite value) or is one of the non-finite renderings
inf, -inf and nan. -/
theorem edit_amount_format (raw s : String)
    (h : edit_stored_amount raw = some s) :
    (∀ d, parsePyFloatFull (commaFix raw) = some (PyVal.finite d) →
      twoFracDigits s = true) ∧
    (twoFracDigits s = true ∨ s = "inf" ∨ s = "-inf" ∨ s = "nan") := by
  unfold edit_stored_amount at h
  cases hp : parsePyFloatFull (commaFix raw) with
  | none => rw [hp] at h; simp at h
  | some v =>
    rw [hp] at h
    have h2 : pyFormat2 (pyRound2Full v) = s := by injection h
    cases v with
    | finite d =>
      have hs : formatCents (centsOf (pyRound2 d)) = s := h2
      constructor
      · intro d' _
        rw [← hs]
        exact twoFracDigits_formatCents _
      · exact Or.inl (by rw [← hs]; exact twoFracDigits_formatCents _)
    | posInf =>
      exact ⟨fun d' hd' => absurd hd' (by simp), Or.inr (Or.inl h2.symm)⟩
    | negInf =>
      exact ⟨fun d' hd' => absurd hd' (by simp), Or.inr (Or.inr (Or.inl h2.symm))⟩
    | nan =>
      exact ⟨fun d' hd' => absurd hd' (by simp), Or.inr (Or.inr (Or.inr h2.symm))⟩

theorem edit_amount_format_witness :
    edit_stored_amount "12.5" = some "12.50" ∧
    ((∀ d, parsePyFloatFull (commaFix "12.5") = some (PyVal.finite d) →
      twoFracDigits "12.50" = true) ∧
     (twoFracDigits "12.50" = true ∨ ("12.50" : String) = "inf" ∨
      ("12.50" : String) = "-inf" ∨ ("12.50" : String) = "nan")) :=
  ⟨by decide, edit_amount_format "12.5" "12.50" (by decide)⟩

/-! ### Positional mutation theorems (C4, C5) -/

/-- C4: deleting at an in-range index shifts the suffix down by one, keeps
the prefix, and returns the removed record. -/
theorem delete_by_index_spec (store : List Row) (i : Nat) (hi : i < store.length) :
    (delete_by_index store (i : Int)).2.length = store.length - 1 ∧
    (∀ j : Nat, j < i → (delete_by_index store (i : Int)).2[j]? = store[j]?) ∧
    (∀ j : Nat, i ≤ j → (delete_by_index store (i : Int)).2[j]? = store[j + 1]?) ∧
    (delete_by_index store (i : Int)).1 = store[i]? := by
  have hcond : (0 : Int) ≤ (i : Int) ∧ ((i : Int)).toNat < store.length := by
    constructor
    · exact Int.natCast_nonneg i
    · simpa using hi
  have hd : delete_by_index store (i : Int) =
      (store[((i : Int)).toNat]?, store.eraseIdx ((i : Int)).toNat) := by
    rw [delete_by_index, if_pos hcond]
  have htn : ((i : Int)).toNat = i := Int.toNat_natCast i
  rw [hd, htn]
  refine ⟨?_, ?_, ?_, rfl⟩
  · rw [List.length_eraseIdx]
    simp [hi]
  · intro j hj
    rw [List.getElem?_eraseIdx, if_pos hj]
  · intro j hj
    rw [List.getElem?_eraseIdx, if_neg (by omega)]

theorem delete_by_index_spec_witness :
    (1 < ([⟨"a", "1", "c", "d"⟩, ⟨"e", "2", "g", "h"⟩, ⟨"i", "3", "k", "l"⟩] :
        List Row).length) ∧
    ((delete_by_index [⟨"a", "1", "c", "d"⟩, ⟨"e", "2", "g", "h"⟩, ⟨"i", "3", "k", "l"⟩]
        (1 : Nat)).2.length =
      ([⟨"a", "1", "c", "d"⟩, ⟨"e", "2", "g", "h"⟩, ⟨"i", "3", "k", "l"⟩] :
        List Row).length - 1 ∧
     (∀ j : Nat, j < 1 →
       (delete_by_index [⟨"a", "1", "c", "d"⟩, ⟨"e", "2", "g", "h"⟩, ⟨"i", "3", "k", "l"⟩]
          (1 : Nat)).2[j]? =
        ([⟨"a", "1", "c", "d"⟩, ⟨"e", "2", "g", "h"⟩, ⟨"i", "3", "k", "l"⟩] :
          List Row)[j]?) ∧
     (∀ j : Nat, 1 ≤ j →
       (delete_by_index [⟨"a", "1", "c", "d"⟩, ⟨"e", "2", "g", "h"⟩, ⟨"i", "3", "k", "l"⟩]
          (1 : Nat)).2[j]? =
        ([⟨"a", "1", "c", "d"⟩, ⟨"e", "2", "g", "h"⟩, ⟨"i", "3", "k", "l"⟩] :
          List Row)[j + 1]?) ∧
     (delete_by_index [⟨"a", "1", "c", "d"⟩, ⟨"e", "2", "g", "h"⟩, ⟨"i", "3", "k", "l"⟩]
        (1 : Nat)).1 =
      ([⟨"a", "1", "c", "d"⟩, ⟨"e", "2", "g", "h"⟩, ⟨"i", "3", "k", "l"⟩] :
        List Row)[1]?) :=
  ⟨by decide,
    delete_by_index_spec [⟨"a", "1", "c", "d"⟩, ⟨"e", "2", "g", "h"⟩, ⟨"i", "3", "k", "l"⟩]
      1 (by decide)⟩

/-- C5: an in-range edit replaces exactly the indexed position, leaving
every other position untouched; an out-of-range index (negative or past
the end) leaves the store entirely unchanged for both edit and delete,
with the error condition signalled. -/
theorem edit_by_index_spec (store : List Row) (idx : Int) (newRow : Row) :
    ((0 ≤ idx ∧ idx.toNat < store.length) →
      (edit_by_index store idx newRow).1 = true ∧
      (edit_by_index store idx newRow).2.length = store.length ∧
      (edit_by_index store idx newRow).2[idx.toNat]? = some newRow ∧
      (∀ j : Nat, j ≠ idx.toNat →
        (edit_by_index store idx newRow).2[j]? = store[j]?)) ∧
    (¬(0 ≤ idx ∧ idx.toNat < store.length) →
      edit_by_index store idx newRow = (false, store) ∧
      delete_by_index store idx = (none, store)) := by
  constructor
  · intro hc
    have he : edit_by_index store idx newRow = (true, store.set idx.toNat newRow) := by
      rw [edit_by_index, if_pos hc]
    rw [he]
    refine ⟨rfl, by simp, ?_, ?_⟩
    · exact List.getElem?_set_eq_of_lt _ hc.2
    · intro j hj
      exact List.getElem?_set_ne (fun h => hj h.symm)
  · intro hc
    constructor
    · rw [edit_by_index, if_neg hc]
    · rw [delete_by_index, if_neg hc]

theorem edit_by_index_spec_witness :
    (((0 : Int) ≤ (5 : Int) ∧ (5 : Int).toNat <
        ([⟨"a", "1", "c", "d"⟩] : List Row).length) →
      (edit_by_index [⟨"a", "1", "c", "d"⟩] 5 ⟨"x", "2", "y", "z"⟩).1 = true ∧
      (edit_by_index [⟨"a", "1", "c", "d"⟩] 5 ⟨"x", "2", "y", "z"⟩).2.length =
        ([⟨"a", "1", "c", "d"⟩] : List Row).length ∧
      (edit_by_index [⟨"a", "1", "c", "d"⟩] 5 ⟨"x", "2", "y", "z"⟩).2[(5 : Int).toNat]? =
        some ⟨"x", "2", "y", "z"⟩ ∧
      (∀ j : Nat, j ≠ (5 : Int).toNat →
        (edit_by_index [⟨"a", "1", "c", "d"⟩] 5 ⟨"x", "2", "y", "z"⟩).2[j]? =
          ([⟨"a", "1", "c", "d"⟩] : List Row)[j]?)) ∧
    (¬((0 : Int) ≤ (5 : Int) ∧ (5 : Int).toNat <
        ([⟨"a", "1", "c", "d"⟩] : List Row).length) →
      edit_by_index [⟨"a", "1", "c", "d"⟩] 5 ⟨"x", "2", "y", "z"⟩ =
        (false, [⟨"a", "1", "c", "d"⟩]) ∧
      delete_by_index [⟨"a", "1", "c", "d"⟩] 5 = (none, [⟨"a", "1", "c", "d"⟩])) :=
  edit_by_index_spec [⟨"a", "1", "c", "d"⟩] 5 ⟨"x", "2", "y", "z"⟩

/-! ### Export theorems (C7) -/

theorem charDigit_digitChar {d : Nat} (h : d < 10) :
    charDigit (Nat.digitChar d) = d := by
  interval_cases d <;> rfl

theorem decode_strftime (t : Timestamp) (h : tsValid t) :
    decode_ts (strftime_ts t) = some t := by
  obtain ⟨y, mo, d, hh, mi, s⟩ := t
  unfold strftime_ts decode_ts
  rw [string_mk_data_eq]
  simp only [pad4, pad2, List.cons_append, List.nil_append]
  have c10 : ∀ n : Nat, n % 10 < 10 := fun n => Nat.mod_lt _ (by norm_num)
  simp only [charDigit_digitChar (c10 _)]
  simp only [tsValid] at h
  norm_num
  omega

/-- C7: exporting an empty sequence fails and writes nothing; exporting a
non-empty sequence produces a file holding the header followed by exactly
the given records in order, under a name embedding the wall-clock
timestamp at second granularity in a fixed-width, decodable format. -/
theorem export_rows_spec (rows : List (List String)) (now : Timestamp)
    (hv : tsValid now) (h4 : ∀ r ∈ rows, r.length = 4) :
    export_rows [] now = none ∧
    (rows ≠ [] → ∃ content,
      export_rows rows now = some (strftime_ts now ++ "_export.csv", content) ∧
      read_rows content = rows) ∧
    decode_ts (strftime_ts now) = some now ∧
    (strftime_ts now).length = 15 := by
  refine ⟨rfl, ?_, decode_strftime now hv, ?_⟩
  · intro hne
    refine ⟨serialRows ((HEADERS :: rows).map (fun r => r.map String.data)), ?_, ?_⟩
    · rw [export_rows, if_neg (by simp [hne])]
    · exact read_rows_write_rows rows h4
  · rw [show (strftime_ts now).length = (strftime_ts now).data.length from rfl,
      strftime_ts, string_mk_data_eq]
    simp [pad4, pad2]

theorem export_rows_spec_witness :
    tsValid ⟨2025, 9, 25, 13, 45, 7⟩ ∧
    (∀ r ∈ ([["2025-01-05", "12.50", "Food", "lunch"]] : List (List String)),
      r.length = 4) ∧
    (export_rows [] ⟨2025, 9, 25, 13, 45, 7⟩ = none ∧
     (([["2025-01-05", "12.50", "Food", "lunch"]] : List (List String)) ≠ [] →
       ∃ content,
         export_rows [["2025-01-05", "12.50", "Food", "lunch"]]
            ⟨2025, 9, 25, 13, 45, 7⟩ =
           some (strftime_ts ⟨2025, 9, 25, 13, 45, 7⟩ ++ "_export.csv", content) ∧
         read_rows content = [["2025-01-05", "12.50", "Food", "lunch"]]) ∧
     decode_ts (strftime_ts ⟨2025, 9, 25, 13, 45, 7⟩) =
       some ⟨2025, 9, 25, 13, 45, 7⟩ ∧
     (strftime_ts ⟨2025, 9, 25, 13, 45, 7⟩).length = 15) :=
  ⟨by decide, by decide,
    export_rows_spec [["2025-01-05", "12.50", "Food", "lunch"]]
      ⟨2025, 9, 25, 13, 45, 7⟩ (by decide) (by decide)⟩

/-! ### Totality theorems (C9) -/

theorem toRows_ok (rows : List (List String)) (h4 : ∀ r ∈ rows, r.length = 4) :
    ∃ rs, toRows rows = .ok rs := by
  induction rows with
  | nil => exact ⟨[], rfl⟩
  | cons r t ih =>
    obtain ⟨rs, hrs⟩ := ih (fun x hx => h4 x (List.mem_cons_of_mem _ hx))
    have hr : r.length = 4 := h4 r (List.mem_cons_self _ _)
    match r, hr with
    | [d, a, c, x], _ =>
      refine ⟨⟨d, a, c, x⟩ :: rs, ?_⟩
      rw [toRows]
      rw [show unpack4 [d, a, c, x] = .ok (d, a, c, x) from rfl, hrs]

/-- C9 (amended): on rows of exactly four fields every filter and
aggregation returns a result; a row with any other number of fields makes
the loops raise ValueError (see the counterexample). -/
theorem raw_operations_total (rows : List (List String))
    (h4 : ∀ r ∈ rows, r.length = 4) :
    (∀ category start_date end_date text,
      (filter_rows_raw rows category start_date end_date text).isOk = true) ∧
    (summarize_by_category_raw rows).isOk = true ∧
    (summarize_by_date_raw rows).isOk = true ∧
    (summarize_by_month_raw rows).isOk = true ∧
    (show_total_raw rows).isOk = true := by
  obtain ⟨rs, hrs⟩ := toRows_ok rows h4
  refine ⟨?_, ?_, ?_, ?_, ?_⟩
  · intro category start_date end_date text
    rw [filter_rows_raw, hrs]
    rfl
  · rw [summarize_by_category_raw, hrs]
    rfl
  · rw [summarize_by_date_raw, hrs]
    rfl
  · rw [summarize_by_month_raw, hrs]
    rfl
  · rw [show_total_raw, hrs]
    rfl

/-- C9 counterexample: a one-field row makes the filter and the
aggregations raise ValueError instead of returning a result. -/
theorem raw_operations_crash_cx :
    filter_rows_raw [["2025-01-05"]] none none none none =
      Except.error PyExc.valueError ∧
    summarize_by_category_raw [["2025-01-05"]] = Except.error PyExc.valueError ∧
    show_total_raw [["2025-01-05"]] = Except.error PyExc.valueError :=
  ⟨rfl, rfl, rfl⟩

theorem raw_operations_total_witness :
    (∀ r ∈ ([["2025-01-05", "12.50", "Food", "lunch"]] : List (List String)),
      r.length = 4) ∧
    ((∀ category start_date end_date text,
      (filter_rows_raw [["2025-01-05", "12.50", "Food", "lunch"]]
        category start_date end_date text).isOk = true) ∧
     (summarize_by_category_raw [["2025-01-05", "12.50", "Food", "lunch"]]).isOk = true ∧
     (summarize_by_date_raw [["2025-01-05", "12.50", "Food", "lunch"]]).isOk = true ∧
     (summarize_by_month_raw [["2025-01-05", "12.50", "Food", "lunch"]]).isOk = true ∧
     (show_total_raw [["2025-01-05", "12.50", "Food", "lunch"]]).isOk = true) :=
  ⟨by decide,
    raw_operations_total [["2025-01-05", "12.50", "Food", "lunch"]] (by decide)⟩
